import Mathlib

/-!
Verification of the discogger OAuth signing, rate limiting, URL splitting,
pagination and client construction logic, shallowly embedded from the Rust
source (src/auth.rs, src/rate_limit.rs, src/pagination.rs, src/client.rs).

Strings are modelled as lists of bytes (naturals below 256); all string
literals appearing in the repository are ASCII, so `strBytes` (char codes of
a Lean string literal) coincides with the UTF-8 bytes the Rust code operates
on.
-/

/-- Bytes of an ASCII string literal (char codes; for ASCII these are the
UTF-8 bytes the Rust code sees). -/
def strBytes (s : String) : List Nat :=
  s.data.map Char.toNat

/-- The RFC 3986 unreserved set used by `OAUTH_ENCODE_SET` in src/auth.rs:
`NON_ALPHANUMERIC` minus `-`, `.`, `_`, `~`; equivalently, a byte survives
unencoded iff it is an ASCII letter, an ASCII digit, or one of `-.__~`. -/
def isUnreservedByte (b : Nat) : Bool :=
  (65 ≤ b && b ≤ 90) || (97 ≤ b && b ≤ 122) || (48 ≤ b && b ≤ 57) ||
  b == 45 || b == 46 || b == 95 || b == 126

/-- Uppercase hexadecimal digit for a nibble, as the `percent_encoding` crate
emits it (0-9 then A-F). -/
def hexDigitUpper (n : Nat) : Nat :=
  if n < 10 then 48 + n else 55 + n

/-- Encoding of one byte by `utf8_percent_encode` with `OAUTH_ENCODE_SET`:
unreserved bytes pass through, every other byte becomes `%` (37) followed by
two uppercase hex digits. -/
def encodeByte (b : Nat) : List Nat :=
  if isUnreservedByte b then [b] else [37, hexDigitUpper (b / 16), hexDigitUpper (b % 16)]

/-- `percent_encode` from src/auth.rs, at the byte level. -/
def percent_encode (s : List Nat) : List Nat :=
  s.flatMap encodeByte

/-- Byte-lexicographic strict order on byte strings, as Rust's `Ord` for
`&str` / byte slices compares them (shorter strict prefixes are smaller).
`BTreeMap<&str, _>` iterates its keys in increasing order of this relation. -/
def byteLt : List Nat → List Nat → Bool
  | [], [] => false
  | [], _ :: _ => true
  | _ :: _, [] => false
  | a :: as, b :: bs => if a < b then true else if b < a then false else byteLt as bs

/-- One insertion into the (sorted, duplicate-free) association list that
models `BTreeMap::insert`: the value of an existing equal key is overwritten
(last-write-wins), otherwise the pair is placed at its sorted position. -/
def insertParam (k v : List Nat) : List (List Nat × List Nat) → List (List Nat × List Nat)
  | [] => [(k, v)]
  | (q, w) :: rest =>
    if byteLt k q then (k, v) :: (q, w) :: rest
    else if k = q then (k, v) :: rest
    else (q, w) :: insertParam k v rest

/-- Fold a sequence of insertions into the map model, in order. -/
def insertAll (m : List (List Nat × List Nat)) (ps : List (List Nat × List Nat)) :
    List (List Nat × List Nat) :=
  ps.foldl (fun acc p => insertParam p.1 p.2 acc) m

/-- First-match lookup in the association list (`BTreeMap` keys are unique,
so with sorted duplicate-free lists this is the map lookup). -/
def lookupParam (k : List Nat) : List (List Nat × List Nat) → Option (List Nat)
  | [] => none
  | (q, w) :: rest => if k = q then some w else lookupParam k rest

/-- The six fixed OAuth parameters inserted by `build_oauth_header`
(src/auth.rs), in source insertion order. -/
def oauthFixed (consumer_key nonce timestamp token : List Nat) :
    List (List Nat × List Nat) :=
  insertAll []
    [ (strBytes "oauth_consumer_key", consumer_key),
      (strBytes "oauth_nonce", nonce),
      (strBytes "oauth_signature_method", strBytes "HMAC-SHA1"),
      (strBytes "oauth_timestamp", timestamp),
      (strBytes "oauth_token", token),
      (strBytes "oauth_version", strBytes "1.0") ]

/-- The per-pair closure of `split_url` in src/auth.rs: `splitn(2, '=')`
splits a query piece at its first `=` (61); with no `=` the whole piece is
the key and the value is empty (`unwrap_or("")`). -/
def parsePair (pair : List Nat) : List Nat × List Nat :=
  (pair.takeWhile (fun b => b ≠ 61), (pair.dropWhile (fun b => b ≠ 61)).drop 1)

/-- `split_url` from src/auth.rs, at the byte level (63 = `?`, 38 = `&`,
61 = `=`; these are ASCII, so byte search equals Rust's char search on the
UTF-8 encoding). Splits at the first `?`; each `&`-separated piece of the
query is parsed by `parsePair`. -/
def split_url (url : List Nat) : List Nat × List (List Nat × List Nat) :=
  if url.contains 63 then
    (url.takeWhile (fun b => b ≠ 63),
      (((url.dropWhile (fun b => b ≠ 63)).drop 1).splitOn 38).map parsePair)
  else (url, [])

/-- The signature parameter set of `build_oauth_header`: the six fixed OAuth
parameters merged with the parsed query pairs of the URL through
`BTreeMap::insert`, iterated in key order. -/
def signatureParams (consumer_key nonce timestamp token url : List Nat) :
    List (List Nat × List Nat) :=
  insertAll (oauthFixed consumer_key nonce timestamp token) (split_url url).2

/-- The parameter string of `build_oauth_header`: percent-encoded
`key=value` pairs joined with `&`. -/
def param_string (params : List (List Nat × List Nat)) : List Nat :=
  List.intercalate [38] (params.map (fun p => percent_encode p.1 ++ 61 :: percent_encode p.2))

theorem byteLt_iff_lex (a b : List Nat) : byteLt a b = true ↔ List.Lex (· < ·) a b := by
  induction a generalizing b with
  | nil =>
    cases b with
    | nil =>
      simp only [byteLt, Bool.false_eq_true, false_iff]
      intro h
      cases h
    | cons y ys =>
      simp only [byteLt, true_iff]
      exact List.Lex.nil
  | cons x xs ih =>
    cases b with
    | nil =>
      simp only [byteLt, Bool.false_eq_true, false_iff]
      intro h
      cases h
    | cons y ys =>
      simp only [byteLt]
      split_ifs with h1 h2
      · simp only [true_iff]
        exact List.Lex.rel h1
      · simp only [Bool.false_eq_true, false_iff]
        intro h
        cases h with
        | rel h' => exact h1 h'
        | cons h' => exact Nat.lt_irrefl _ h2
      · have hxy : x = y := Nat.le_antisymm (Nat.le_of_not_lt h2) (Nat.le_of_not_lt h1)
        subst hxy
        rw [ih]
        constructor
        · exact List.Lex.cons
        · intro h
          cases h with
          | rel h' => exact absurd h' h1
          | cons h' => exact h'

theorem byteLt_irrefl (a : List Nat) : byteLt a a = false := by
  rw [Bool.eq_false_iff, Ne, byteLt_iff_lex]
  intro h
  exact asymm h h

theorem byteLt_trans {a b c : List Nat} (hab : byteLt a b = true) (hbc : byteLt b c = true) :
    byteLt a c = true := by
  rw [byteLt_iff_lex] at hab hbc ⊢
  exact IsTrans.trans a b c hab hbc

theorem eq_of_not_byteLt :
    ∀ {a b : List Nat}, byteLt a b = false → byteLt b a = false → a = b := by
  intro a
  induction a with
  | nil =>
    intro b hab _
    cases b with
    | nil => rfl
    | cons y ys => simp [byteLt] at hab
  | cons x xs ih =>
    intro b hab hba
    cases b with
    | nil => simp [byteLt] at hba
    | cons y ys =>
      simp only [byteLt] at hab hba
      split_ifs at hab hba with h1 h2
      · have hxy : x = y := Nat.le_antisymm (Nat.le_of_not_lt h2) (Nat.le_of_not_lt h1)
        subst hxy
        rw [ih hab hba]

theorem mem_insertParam {x : List Nat × List Nat} {k v : List Nat} :
    ∀ {l : List (List Nat × List Nat)}, x ∈ insertParam k v l → x = (k, v) ∨ x ∈ l := by
  intro l
  induction l with
  | nil =>
    intro hx
    simp only [insertParam, List.mem_singleton] at hx
    exact Or.inl hx
  | cons p rest ih =>
    obtain ⟨q, w⟩ := p
    intro hx
    simp only [insertParam] at hx
    split_ifs at hx with h1 h2
    · rcases List.mem_cons.mp hx with h | h
      · exact Or.inl h
      · exact Or.inr h
    · rcases List.mem_cons.mp hx with h | h
      · exact Or.inl h
      · exact Or.inr (List.mem_cons_of_mem _ h)
    · rcases List.mem_cons.mp hx with h | h
      · exact Or.inr (h ▸ List.mem_cons_self _ _)
      · rcases ih h with h' | h'
        · exact Or.inl h'
        · exact Or.inr (List.mem_cons_of_mem _ h')

theorem pairwise_insertParam {k v : List Nat} :
    ∀ {l : List (List Nat × List Nat)},
      l.Pairwise (fun a b => byteLt a.1 b.1 = true) →
      (insertParam k v l).Pairwise (fun a b => byteLt a.1 b.1 = true) := by
  intro l
  induction l with
  | nil =>
    intro _
    simp [insertParam]
  | cons p rest ih =>
    obtain ⟨q, w⟩ := p
    intro hl
    rw [List.pairwise_cons] at hl
    obtain ⟨hq, hrest⟩ := hl
    simp only [insertParam]
    split_ifs with h1 h2
    · rw [List.pairwise_cons]
      refine ⟨?_, List.pairwise_cons.mpr ⟨hq, hrest⟩⟩
      intro b hb
      rcases List.mem_cons.mp hb with h | h
      · rw [h]
        exact h1
      · exact byteLt_trans h1 (hq b h)
    · rw [List.pairwise_cons]
      exact ⟨fun b hb => h2 ▸ hq b hb, hrest⟩
    · rw [List.pairwise_cons]
      refine ⟨?_, ih hrest⟩
      intro b hb
      rcases mem_insertParam hb with h | h
      · rw [h]
        by_contra hqk
        exact h2 (eq_of_not_byteLt (Bool.eq_false_iff.mpr h1) (Bool.eq_false_iff.mpr hqk))
      · exact hq b h

theorem pairwise_insertAll {ps : List (List Nat × List Nat)} :
    ∀ {m : List (List Nat × List Nat)},
      m.Pairwise (fun a b => byteLt a.1 b.1 = true) →
      (insertAll m ps).Pairwise (fun a b => byteLt a.1 b.1 = true) := by
  induction ps with
  | nil =>
    intro m hm
    exact hm
  | cons p rest ih =>
    intro m hm
    exact ih (pairwise_insertParam hm)

theorem lookup_insertParam {k q v : List Nat} :
    ∀ {l : List (List Nat × List Nat)},
      lookupParam k (insertParam q v l) = if k = q then some v else lookupParam k l := by
  intro l
  induction l with
  | nil =>
    by_cases hk : k = q
    · subst hk
      simp [insertParam, lookupParam]
    · simp [insertParam, lookupParam, hk]
  | cons p rest ih =>
    obtain ⟨q₀, w₀⟩ := p
    simp only [insertParam]
    by_cases h1 : byteLt q q₀ = true
    · rw [if_pos h1]
      by_cases hk : k = q
      · subst hk
        simp [lookupParam]
      · simp [lookupParam, hk]
    · rw [if_neg h1]
      by_cases h2 : q = q₀
      · rw [if_pos h2]
        subst h2
        by_cases hk : k = q
        · subst hk
          simp [lookupParam]
        · simp [lookupParam, hk]
      · rw [if_neg h2]
        by_cases hk : k = q₀
        · subst hk
          have hkq : ¬ k = q := fun he => h2 he.symm
          simp [lookupParam, hkq]
        · simp [lookupParam, hk, ih]

theorem lookup_insertAll {k : List Nat} :
    ∀ {ps m : List (List Nat × List Nat)},
      lookupParam k (insertAll m ps) =
        ps.foldl (fun acc p => if k = p.1 then some p.2 else acc) (lookupParam k m) := by
  intro ps
  induction ps with
  | nil =>
    intro m
    rfl
  | cons p rest ih =>
    intro m
    simp only [insertAll, List.foldl_cons] at ih ⊢
    rw [ih, lookup_insertParam]

/-- The signature parameter set is strictly sorted by `byteLt` on raw keys:
it is produced by repeated sorted insertion starting from the empty map. -/
theorem signatureParams_sorted (consumer_key nonce timestamp token url : List Nat) :
    (signatureParams consumer_key nonce timestamp token url).Pairwise
      (fun a b => byteLt a.1 b.1 = true) :=
  pairwise_insertAll (pairwise_insertAll List.Pairwise.nil)

/-- Claim C1, counterexample: the signature parameter set is NOT always ordered
by byte-lexicographic order of the percent-encoded key.  For the URL
`https://x/y?A=1&[=2` the `BTreeMap` orders the raw keys `A` (0x41) before
`[` (0x5B), but the encoded keys compare the other way around:
`%5B` is byte-wise smaller than `A` because `%` (0x25) is smaller than every
unreserved byte.  So the pair with the smaller encoded key appears later in
the produced parameter string. -/
theorem c1_counterexample :
    ¬ List.Pairwise (fun a b : List Nat × List Nat =>
        byteLt (percent_encode a.1) (percent_encode b.1) = true)
      (signatureParams (strBytes "ck") (strBytes "abc") (strBytes "123") (strBytes "tk")
        (strBytes "https://x/y?A=1&[=2")) ∧
    ((signatureParams (strBytes "ck") (strBytes "abc") (strBytes "123") (strBytes "tk")
        (strBytes "https://x/y?A=1&[=2")).get? 0).map Prod.fst = some (strBytes "A") ∧
    ((signatureParams (strBytes "ck") (strBytes "abc") (strBytes "123") (strBytes "tk")
        (strBytes "https://x/y?A=1&[=2")).get? 1).map Prod.fst = some (strBytes "[") ∧
    byteLt (percent_encode (strBytes "[")) (percent_encode (strBytes "A")) = true := by
  refine ⟨by decide, by decide, by decide, by decide⟩

/-- Claim C1 (amended): the signature parameter string joins the `key=value`
pairs sorted by byte-lexicographic order of the RAW (unencoded) key — the
iteration order of `BTreeMap<&str, String>` — not of the percent-encoded key.
For every choice of the six fixed OAuth parameter values and every URL, any
two pairs of the produced parameter set are strictly increasing in `byteLt`
on their raw keys. -/
theorem c1_sorted_by_raw_key (consumer_key nonce timestamp token url : List Nat) :
    (signatureParams consumer_key nonce timestamp token url).Pairwise
      (fun a b => byteLt a.1 b.1 = true) :=
  signatureParams_sorted consumer_key nonce timestamp token url

/-- Claim C5: the six fixed OAuth parameters and the parsed query pairs are
merged into a single mapping with last-write-wins on identical keys: looking
up any key in the final parameter set gives the value of the LAST query pair
with that key (the left fold over the query pairs), falling back to the fixed
OAuth value when no query pair has that key; and every key appears exactly
once (the key list of the final parameter set has no duplicates). -/
theorem c5_merge_last_write_wins (consumer_key nonce timestamp token url k : List Nat) :
    lookupParam k (signatureParams consumer_key nonce timestamp token url) =
      (split_url url).2.foldl (fun acc p => if k = p.1 then some p.2 else acc)
        (lookupParam k (oauthFixed consumer_key nonce timestamp token)) ∧
    ((signatureParams consumer_key nonce timestamp token url).map Prod.fst).Nodup := by
  constructor
  · exact lookup_insertAll
  · have hp := signatureParams_sorted consumer_key nonce timestamp token url
    exact hp.map Prod.fst fun a b h he => by
      rw [he, byteLt_irrefl] at h
      cases h

/-- Claim C6: percent-encoding leaves unreserved bytes (letters, digits,
`-`, `.`, `_`, `~`) unchanged — so it is the identity on strings of such
bytes, in particular on `abc-._~` — and encodes every other byte below 256 as
`%` followed by two uppercase hexadecimal digits; encoding a space gives
`%20` and encoding `+` gives `%2B`. -/
theorem c6_percent_encode_spec :
    (∀ l : List Nat, (∀ b ∈ l, isUnreservedByte b = true) → percent_encode l = l) ∧
    percent_encode (strBytes "abc-._~") = strBytes "abc-._~" ∧
    percent_encode (strBytes " ") = strBytes "%20" ∧
    percent_encode (strBytes "+") = strBytes "%2B" ∧
    (∀ b : Nat, b < 256 → isUnreservedByte b = false →
      ∃ hi lo, encodeByte b = [37, hi, lo] ∧
        ((48 ≤ hi ∧ hi ≤ 57) ∨ (65 ≤ hi ∧ hi ≤ 70)) ∧
        ((48 ≤ lo ∧ lo ≤ 57) ∨ (65 ≤ lo ∧ lo ≤ 70))) := by
  refine ⟨?_, by decide, by decide, by decide, ?_⟩
  · intro l hl
    induction l with
    | nil => rfl
    | cons b rest ih =>
      have hb : isUnreservedByte b = true := hl b (List.mem_cons_self _ _)
      have hrest : percent_encode rest = rest :=
        ih fun x hx => hl x (List.mem_cons_of_mem _ hx)
      simp [percent_encode, encodeByte, hb] at hrest ⊢
      exact hrest
  · intro b hb256 hb
    refine ⟨hexDigitUpper (b / 16), hexDigitUpper (b % 16), by simp [encodeByte, hb], ?_, ?_⟩
    · have h16 : b / 16 < 16 := Nat.div_lt_of_lt_mul (by omega)
      unfold hexDigitUpper
      split_ifs with h <;> omega
    · have h16 : b % 16 < 16 := Nat.mod_lt _ (by omega)
      unfold hexDigitUpper
      split_ifs with h <;> omega

/-- Witness for C6: instantiates the identity conjunct on `xy` and the
uppercase-hex conjunct on the space byte 32. -/
theorem c6_witness :
    percent_encode (strBytes "xy") = strBytes "xy" ∧
    ∃ hi lo, encodeByte 32 = [37, hi, lo] ∧
      ((48 ≤ hi ∧ hi ≤ 57) ∨ (65 ≤ hi ∧ hi ≤ 70)) ∧
      ((48 ≤ lo ∧ lo ≤ 57) ∨ (65 ≤ lo ∧ lo ≤ 70)) :=
  ⟨c6_percent_encode_spec.1 (strBytes "xy") (by decide),
   c6_percent_encode_spec.2.2.2.2 32 (by decide) (by decide)⟩

/-- Splitting `pre ++ x :: post` at the first element failing `p`, when all
of `pre` satisfies `p` and `x` does not: `takeWhile` returns `pre` and
`dropWhile` returns `x :: post`. -/
theorem takeWhile_dropWhile_split {p : Nat → Bool} :
    ∀ (pre : List Nat) (x : Nat) (post : List Nat), (∀ a ∈ pre, p a = true) → p x = false →
      (pre ++ x :: post).takeWhile p = pre ∧ (pre ++ x :: post).dropWhile p = x :: post := by
  intro pre
  induction pre with
  | nil =>
    intro x post _ hx
    simp [List.takeWhile, List.dropWhile, hx]
  | cons a rest ih =>
    intro x post hpre hx
    have ha : p a = true := hpre a (List.mem_cons_self _ _)
    have hrest := ih x post (fun b hb => hpre b (List.mem_cons_of_mem _ hb)) hx
    simp [List.takeWhile, List.dropWhile, ha, hrest.1, hrest.2]

/-- Claim C7: `split_url` returns the whole string with an empty parameter
sequence when there is no `?` (63); otherwise the characters before the
first `?` as base and the remainder split on `&` (38) and parsed in order,
where a piece with no `=` (61) becomes that text as key with empty value,
and a piece `k=v` (with `=`-free `k`) yields exactly `(k, v)` — the value
is the verbatim byte suffix after the first `=`, with no decoding.  The
concrete example of the spec is included. -/
theorem c7_split_url_spec :
    (∀ url : List Nat, 63 ∉ url → split_url url = (url, [])) ∧
    (∀ pre post : List Nat, 63 ∉ pre →
      split_url (pre ++ 63 :: post) = (pre, (post.splitOn 38).map parsePair)) ∧
    (∀ pair : List Nat, 61 ∉ pair → parsePair pair = (pair, [])) ∧
    (∀ kpart vpart : List Nat, 61 ∉ kpart → parsePair (kpart ++ 61 :: vpart) = (kpart, vpart)) ∧
    split_url (strBytes "https://x/y?a=1&b=2") =
      (strBytes "https://x/y", [(strBytes "a", strBytes "1"), (strBytes "b", strBytes "2")]) := by
  refine ⟨?_, ?_, ?_, ?_, by decide⟩
  · intro url hq
    have hc : url.contains 63 = false := by
      simpa using hq
    rw [split_url, hc]
    simp
  · intro pre post hq
    have hpre : ∀ a ∈ pre, (fun b : Nat => decide (b ≠ 63)) a = true := by
      intro a ha
      simp only [decide_eq_true_eq]
      intro he
      exact hq (he ▸ ha)
    have hsplit := takeWhile_dropWhile_split (p := fun b => decide (b ≠ 63)) pre 63 post
      hpre (by simp)
    have hc : (pre ++ 63 :: post).contains 63 = true := by
      simp
    rw [split_url, hc, if_pos rfl, hsplit.1, hsplit.2]
    rfl
  · intro pair hq
    have hp : ∀ a ∈ pair, (fun b : Nat => decide (b ≠ 61)) a = true := by
      intro a ha
      simp only [decide_eq_true_eq]
      intro he
      exact hq (he ▸ ha)
    have h1 : pair.takeWhile (fun b => decide (b ≠ 61)) = pair :=
      List.takeWhile_eq_self_iff.mpr hp
    have h2 : pair.dropWhile (fun b => decide (b ≠ 61)) = [] :=
      List.dropWhile_eq_nil_iff.mpr hp
    rw [parsePair, h1, h2]
    rfl
  · intro kpart vpart hq
    have hk : ∀ a ∈ kpart, (fun b : Nat => decide (b ≠ 61)) a = true := by
      intro a ha
      simp only [decide_eq_true_eq]
      intro he
      exact hq (he ▸ ha)
    have hsplit := takeWhile_dropWhile_split (p := fun b => decide (b ≠ 61)) kpart 61 vpart
      hk (by simp)
    rw [parsePair, hsplit.1, hsplit.2]
    rfl

/-- Witness for C7: instantiates the no-`?` case, the split case, and both
pair-parsing cases at concrete inputs. -/
theorem c7_witness :
    split_url (strBytes "https://x/y") = (strBytes "https://x/y", []) ∧
    split_url (strBytes "https://x/y" ++ 63 :: strBytes "a=1&b") =
      (strBytes "https://x/y", ((strBytes "a=1&b").splitOn 38).map parsePair) ∧
    parsePair (strBytes "flag") = (strBytes "flag", []) ∧
    parsePair (strBytes "a" ++ 61 :: strBytes "1") = (strBytes "a", strBytes "1") :=
  ⟨c7_split_url_spec.1 (strBytes "https://x/y") (by decide),
   c7_split_url_spec.2.1 (strBytes "https://x/y") (strBytes "a=1&b") (by decide),
   c7_split_url_spec.2.2.1 (strBytes "flag") (by decide),
   c7_split_url_spec.2.2.2.1 (strBytes "a") (strBytes "1") (by decide)⟩

/-!
Rate limiter (src/rate_limit.rs).  The `f64` fields are modelled over `ℚ`:
every arithmetic fact proved here (zero-ness, sign, comparison with the
cap) is exact in both representations for the values involved.  `Instant`
timestamps are rational numbers; each operation receives the current time
`now` as a parameter.
-/

/-- State of `RateLimiterInner` (src/rate_limit.rs). -/
structure RateLimiterInner where
  max_tokens : Nat
  tokens : ℚ
  last_refill : ℚ
  refill_rate : ℚ

/-- `RateLimiter::new(max_per_minute)`: a full bucket with
`refill_rate = max_per_minute / 60`. -/
def RateLimiter.new (max_per_minute : Nat) (now : ℚ) : RateLimiterInner :=
  { max_tokens := max_per_minute,
    tokens := (max_per_minute : ℚ),
    last_refill := now,
    refill_rate := (max_per_minute : ℚ) / 60 }

/-- `RateLimiterInner::refill`: add `elapsed * refill_rate` tokens, capped at
`max_tokens`, and advance `last_refill` to `now`. -/
def RateLimiterInner.refill (s : RateLimiterInner) (now : ℚ) : RateLimiterInner :=
  { s with
    tokens := min (s.tokens + (now - s.last_refill) * s.refill_rate) (s.max_tokens : ℚ),
    last_refill := now }

/-- One iteration of the `RateLimiter::acquire` loop body: refill, then if a
whole token is available consume it and return (`true`); otherwise leave the
state refilled and report that the caller must wait (`false`). -/
def RateLimiter.tryAcquire (s : RateLimiterInner) (now : ℚ) : RateLimiterInner × Bool :=
  let r := s.refill now
  if 1 ≤ r.tokens then ({ r with tokens := r.tokens - 1 }, true) else (r, false)

/-- `RateLimiter::sync_from_headers(used, limit)`: full reset from the
server-reported counters; `tokens` is the saturating difference
`limit - used` (`Nat` subtraction is saturating). -/
def RateLimiter.sync_from_headers (_s : RateLimiterInner) (now : ℚ) (used limit : Nat) :
    RateLimiterInner :=
  { max_tokens := limit,
    refill_rate := (limit : ℚ) / 60,
    tokens := ((limit - used : Nat) : ℚ),
    last_refill := now }

/-- Reachable limiter states: any construction, any acquire iteration at a
time not before the last refill, any header sync with any `u32` counters. -/
inductive RateReachable : RateLimiterInner → Prop
  | new (m : Nat) (now : ℚ) : RateReachable (RateLimiter.new m now)
  | acquire (s : RateLimiterInner) (now : ℚ) : RateReachable s → s.last_refill ≤ now →
      RateReachable (RateLimiter.tryAcquire s now).1
  | sync (s : RateLimiterInner) (now : ℚ) (used limit : Nat) : RateReachable s →
      RateReachable (RateLimiter.sync_from_headers s now used limit)

/-- Reachability under the guard the claim assumes: positive construction
argument and positive server-reported limit in every sync. -/
inductive RateReachablePos : RateLimiterInner → Prop
  | new (m : Nat) (now : ℚ) : 0 < m → RateReachablePos (RateLimiter.new m now)
  | acquire (s : RateLimiterInner) (now : ℚ) : RateReachablePos s → s.last_refill ≤ now →
      RateReachablePos (RateLimiter.tryAcquire s now).1
  | sync (s : RateLimiterInner) (now : ℚ) (used limit : Nat) : RateReachablePos s →
      0 < limit → RateReachablePos (RateLimiter.sync_from_headers s now used limit)

theorem tryAcquire_refill_rate (s : RateLimiterInner) (now : ℚ) :
    ((RateLimiter.tryAcquire s now).1).refill_rate = s.refill_rate := by
  unfold RateLimiter.tryAcquire RateLimiterInner.refill
  dsimp only
  split <;> rfl

theorem tryAcquire_max_tokens (s : RateLimiterInner) (now : ℚ) :
    ((RateLimiter.tryAcquire s now).1).max_tokens = s.max_tokens := by
  unfold RateLimiter.tryAcquire RateLimiterInner.refill
  dsimp only
  split <;> rfl

/-- Claim C2, counterexample: `refill_rate = 0` IS reachable, so the claimed
invariant `max_tokens > 0` is not established at construction nor preserved:
starting from the client's own construction (`RateLimiter::new(60)`), one
`sync_from_headers(used = 0, limit = 0)` — server headers carry arbitrary
`u32` values and are not validated — leaves `max_tokens = 0` and
`refill_rate = 0`, the exact state in which the wait computation
`1.0 / refill_rate` is no longer finite. -/
theorem c2_counterexample :
    RateReachable (RateLimiter.sync_from_headers (RateLimiter.new 60 0) 0 0 0) ∧
    (RateLimiter.sync_from_headers (RateLimiter.new 60 0) 0 0 0).refill_rate = 0 ∧
    (RateLimiter.sync_from_headers (RateLimiter.new 60 0) 0 0 0).max_tokens = 0 := by
  refine ⟨RateReachable.sync _ _ _ _ (RateReachable.new 60 0), ?_, rfl⟩
  norm_num [RateLimiter.sync_from_headers]

/-- Claim C2 (amended): provided the limiter is constructed with
`max_per_minute > 0` and every `sync_from_headers` call carries
`limit > 0` — true of the repository's own constructions (60 or 25) —
every reachable state has `refill_rate > 0`, so the waiting branch's
duration `1 / refill_rate` is finite (well-defined and positive). -/
theorem c2_refill_rate_pos (s : RateLimiterInner) (h : RateReachablePos s) :
    0 < s.refill_rate := by
  induction h with
  | new m now hm =>
    have hm0 : (0 : ℚ) < (m : ℚ) := by exact_mod_cast hm
    show (0 : ℚ) < (m : ℚ) / 60
    positivity
  | acquire s now _ _ ih =>
    rw [tryAcquire_refill_rate]
    exact ih
  | sync s now used limit _ hl _ =>
    have hl0 : (0 : ℚ) < (limit : ℚ) := by exact_mod_cast hl
    show (0 : ℚ) < (limit : ℚ) / 60
    positivity

/-- Witness for C2: the guard holds for the client's authenticated
construction, and the conclusion evaluates there. -/
theorem c2_witness : 0 < (RateLimiter.new 60 0).refill_rate :=
  c2_refill_rate_pos (RateLimiter.new 60 0) (RateReachablePos.new 60 0 (by norm_num))

/-- Claim C3: `sync_from_headers(used, limit)` leaves exactly
`max_tokens = limit`, `refill_rate = limit / 60`, `tokens = limit - used`
saturating at zero (never negative, and zero whenever `used ≥ limit`), and
`last_refill =` the current time. -/
theorem c3_sync_from_headers_state (s : RateLimiterInner) (now : ℚ) (used limit : Nat) :
    (RateLimiter.sync_from_headers s now used limit).max_tokens = limit ∧
    (RateLimiter.sync_from_headers s now used limit).refill_rate = (limit : ℚ) / 60 ∧
    (RateLimiter.sync_from_headers s now used limit).tokens = ((limit - used : Nat) : ℚ) ∧
    0 ≤ (RateLimiter.sync_from_headers s now used limit).tokens ∧
    (limit ≤ used → (RateLimiter.sync_from_headers s now used limit).tokens = 0) ∧
    (RateLimiter.sync_from_headers s now used limit).last_refill = now := by
  refine ⟨rfl, rfl, rfl, Nat.cast_nonneg _, ?_, rfl⟩
  intro h
  show ((limit - used : Nat) : ℚ) = 0
  rw [Nat.sub_eq_zero_of_le h]
  norm_num

/-- Witness for C3: a sync with `used = 70 ≥ limit = 60` saturates the
token count at zero. -/
theorem c3_witness :
    (RateLimiter.sync_from_headers (RateLimiter.new 60 0) 5 70 60).max_tokens = 60 ∧
    (RateLimiter.sync_from_headers (RateLimiter.new 60 0) 5 70 60).tokens = 0 ∧
    (RateLimiter.sync_from_headers (RateLimiter.new 60 0) 5 70 60).last_refill = 5 :=
  have h := c3_sync_from_headers_state (RateLimiter.new 60 0) 5 70 60
  ⟨h.1, h.2.2.2.2.1 (by norm_num), h.2.2.2.2.2⟩

/-- Claim C4: in every reachable limiter state, `0 ≤ tokens ≤ max_tokens`
and `refill_rate = max_tokens / 60`: construction starts full, refill caps
at `max_tokens`, acquire only decrements when a whole token is available,
and a header sync sets a saturated count never exceeding the new cap. -/
theorem c4_rate_limiter_invariant (s : RateLimiterInner) (h : RateReachable s) :
    0 ≤ s.tokens ∧ s.tokens ≤ (s.max_tokens : ℚ) ∧
    s.refill_rate = (s.max_tokens : ℚ) / 60 := by
  induction h with
  | new m now =>
    exact ⟨Nat.cast_nonneg m, le_refl _, rfl⟩
  | acquire s now _ hle ih =>
    obtain ⟨h0, hmax, hrate⟩ := ih
    have hrate0 : 0 ≤ s.refill_rate := by
      rw [hrate]
      positivity
    have helapsed : 0 ≤ now - s.last_refill := sub_nonneg.mpr hle
    have hr0 : 0 ≤ (s.refill now).tokens := by
      unfold RateLimiterInner.refill
      dsimp only
      exact le_min (by positivity) (by positivity)
    have hrmax : (s.refill now).tokens ≤ ((s.refill now).max_tokens : ℚ) := by
      unfold RateLimiterInner.refill
      dsimp only
      exact min_le_right _ _
    unfold RateLimiter.tryAcquire
    dsimp only
    split
    · rename_i h1
      refine ⟨?_, ?_, ?_⟩
      · show 0 ≤ (s.refill now).tokens - 1
        linarith
      · show (s.refill now).tokens - 1 ≤ ((s.refill now).max_tokens : ℚ)
        linarith
      · show (s.refill now).refill_rate = ((s.refill now).max_tokens : ℚ) / 60
        exact hrate
    · exact ⟨hr0, hrmax, hrate⟩
  | sync s now used limit _ _ =>
    refine ⟨Nat.cast_nonneg _, ?_, rfl⟩
    show ((limit - used : Nat) : ℚ) ≤ (limit : ℚ)
    exact_mod_cast Nat.sub_le limit used

/-- Witness for C4: the invariant evaluated at the freshly built
authenticated limiter. -/
theorem c4_witness :
    0 ≤ (RateLimiter.new 60 0).tokens ∧
    (RateLimiter.new 60 0).tokens ≤ ((RateLimiter.new 60 0).max_tokens : ℚ) ∧
    (RateLimiter.new 60 0).refill_rate = ((RateLimiter.new 60 0).max_tokens : ℚ) / 60 :=
  c4_rate_limiter_invariant (RateLimiter.new 60 0) (RateReachable.new 60 0)

/-!
Pagination (src/pagination.rs) and the client layer (src/client.rs).
-/

/-- `PaginationInfo` (src/models/mod.rs). -/
structure PaginationInfo where
  page : Nat
  pages : Nat
  per_page : Nat
  items : Nat

/-- `PaginationParams` (src/pagination.rs). -/
structure PaginationParams where
  page : Nat
  per_page : Nat

/-- `Paginated<T>` (src/pagination.rs): items plus pagination metadata and
the precomputed next-page state. -/
structure Paginated (T : Type) where
  items : List T
  pagination : PaginationInfo
  next_page_num : Option Nat
  per_page : Nat

/-- `Paginated::new`: `next_page_num = page + 1` when `page < pages`, else
none; `per_page` copied from the server metadata. -/
def Paginated.new {T : Type} (items : List T) (pagination : PaginationInfo) : Paginated T :=
  { items := items,
    pagination := pagination,
    next_page_num :=
      if pagination.page < pagination.pages then some (pagination.page + 1) else none,
    per_page := pagination.per_page }

/-- `Paginated::has_next`. -/
def Paginated.has_next {T : Type} (p : Paginated T) : Bool :=
  p.next_page_num.isSome

/-- `Paginated::next_page_params`. -/
def Paginated.next_page_params {T : Type} (p : Paginated T) : Option PaginationParams :=
  p.next_page_num.map fun page => { page := page, per_page := p.per_page }

/-- `Paginated::total_items`. -/
def Paginated.total_items {T : Type} (p : Paginated T) : Nat :=
  p.pagination.items

/-- Claim C8: `has_next()` is true and `next_page_params()` is
`some (page + 1, per_page)` exactly when `page < pages`; when
`page ≥ pages` both report no next page; `total_items()` passes the
server-reported `items` through unchanged. -/
theorem c8_pagination_cursor {T : Type} (items : List T) (info : PaginationInfo) :
    (info.page < info.pages →
      (Paginated.new items info).has_next = true ∧
      (Paginated.new items info).next_page_params =
        some { page := info.page + 1, per_page := info.per_page }) ∧
    (info.pages ≤ info.page →
      (Paginated.new items info).has_next = false ∧
      (Paginated.new items info).next_page_params = none) ∧
    (Paginated.new items info).total_items = info.items := by
  refine ⟨?_, ?_, rfl⟩
  · intro h
    constructor
    · simp [Paginated.new, Paginated.has_next, h]
    · simp [Paginated.new, Paginated.next_page_params, h]
  · intro h
    constructor
    · simp [Paginated.new, Paginated.has_next, Nat.not_lt.mpr h]
    · simp [Paginated.new, Paginated.next_page_params, Nat.not_lt.mpr h]

/-- Witness for C8: `page=1, pages=3` has a next page `(2, 50)`;
`page=3, pages=3` has none; `items=150` passes through. -/
theorem c8_witness :
    (Paginated.new ([] : List Unit) ⟨1, 3, 50, 150⟩).has_next = true ∧
    (Paginated.new ([] : List Unit) ⟨1, 3, 50, 150⟩).next_page_params = some ⟨2, 50⟩ ∧
    (Paginated.new ([] : List Unit) ⟨3, 3, 50, 150⟩).has_next = false ∧
    (Paginated.new ([] : List Unit) ⟨3, 3, 50, 150⟩).next_page_params = none ∧
    (Paginated.new ([] : List Unit) ⟨1, 3, 50, 150⟩).total_items = 150 :=
  have h1 := c8_pagination_cursor ([] : List Unit) ⟨1, 3, 50, 150⟩
  have h2 := c8_pagination_cursor ([] : List Unit) ⟨3, 3, 50, 150⟩
  ⟨(h1.1 (by norm_num)).1, (h1.1 (by norm_num)).2,
   (h2.2.1 (by norm_num)).1, (h2.2.1 (by norm_num)).2, h1.2.2⟩

/-- `Auth` (src/auth.rs). -/
inductive Auth where
  | personalToken (token : List Nat)
  | oauth (consumer_key consumer_secret token token_secret : List Nat)

/-- `DiscogsError` (src/error.rs). -/
inductive DiscogsError where
  | Http
  | Api (status : Nat) (body : List Nat)
  | RateLimited
  | Configuration (msg : String)
  | AuthRequired
  | Deserialization

/-- Observable side effects of a client call, in order. -/
inductive Effect where
  | acquireToken
  | httpRequest

instance : DecidableEq Effect := fun a b => by
  cases a <;> cases b <;> first
    | exact Decidable.isTrue rfl
    | exact Decidable.isFalse (fun h => Effect.noConfusion h)

/-- Effect trace of `DiscogsClient::get` (src/client.rs): it first awaits
`rate_limiter.acquire()` and then sends the HTTP request. -/
def getEffects : List Effect :=
  [Effect.acquireToken, Effect.httpRequest]

/-- `DiscogsClient::search` (src/client.rs), as its effect trace and
outcome: with no credential configured it returns `AuthRequired` having
performed no effect at all; with a credential it proceeds into the
paginated GET, whose trace begins with the token acquisition followed by
the request. -/
def search (auth : Option Auth) : List Effect × Except DiscogsError Unit :=
  match auth with
  | none => ([], Except.error DiscogsError.AuthRequired)
  | some _ => (getEffects, Except.ok ())

/-- Claim C9: with no credential configured, `search` returns the
`AuthRequired` error from its local credential check: its effect trace is
empty — in particular no rate-limiter token is acquired and no network
request is attempted. -/
theorem c9_search_auth_required (auth : Option Auth) (h : auth = none) :
    search auth = ([], Except.error DiscogsError.AuthRequired) ∧
    Effect.acquireToken ∉ (search auth).1 ∧
    Effect.httpRequest ∉ (search auth).1 := by
  subst h
  refine ⟨rfl, ?_, ?_⟩ <;> simp [search]

/-- Witness for C9: evaluated at the credential-less client. -/
theorem c9_witness :
    search none = ([], Except.error DiscogsError.AuthRequired) ∧
    Effect.acquireToken ∉ (search none).1 ∧
    Effect.httpRequest ∉ (search none).1 :=
  c9_search_auth_required none rfl

/-- `ClientBuilder::build` (src/client.rs), restricted to the state the
claims concern.  Error paths in source order: a missing `User-Agent` and an
empty `User-Agent` are `Configuration` errors; then
`reqwest::Client::builder().user_agent(&user_agent).build()` can itself
fail — e.g. for a user agent that is not a valid HTTP header value — and
that failure is mapped to `DiscogsError::Http`.  The validity predicate
lives inside reqwest, so it is passed in as the oracle `http_build_ok`;
every theorem below quantifies over it.  On success the client carries
`RateLimiter::new(60)` when any credential is configured and
`RateLimiter::new(25)` otherwise. -/
def ClientBuilder.build (http_build_ok : String → Bool) (user_agent : Option String)
    (auth : Option Auth) (now : ℚ) :
    Except DiscogsError (Option Auth × RateLimiterInner) :=
  match user_agent with
  | none => Except.error (DiscogsError.Configuration "User-Agent is required by the Discogs API")
  | some ua =>
    if ua = "" then Except.error (DiscogsError.Configuration "User-Agent must not be empty")
    else if http_build_ok ua then
      Except.ok (auth, RateLimiter.new (if auth.isSome then 60 else 25) now)
    else Except.error DiscogsError.Http

/-- Run `n` back-to-back acquire iterations at the same instant `now`,
reporting whether all of them obtained a token immediately (no iteration
entered the waiting branch). -/
def acquireN (s : RateLimiterInner) (now : ℚ) : Nat → RateLimiterInner × Bool
  | 0 => (s, true)
  | n + 1 =>
    let r := RateLimiter.tryAcquire s now
    if r.2 then acquireN r.1 now n else (r.1, false)

theorem acquireN_all_immediate :
    ∀ (n : Nat) (s : RateLimiterInner) (now : ℚ), s.last_refill = now →
      (n : ℚ) ≤ s.tokens → s.tokens ≤ (s.max_tokens : ℚ) → (acquireN s now n).2 = true := by
  intro n
  induction n with
  | zero =>
    intro s now _ _ _
    rfl
  | succ n ih =>
    intro s now hlast htok hmax
    have hrefill : (s.refill now).tokens = s.tokens := by
      unfold RateLimiterInner.refill
      dsimp only
      rw [hlast, sub_self, zero_mul, add_zero]
      exact min_eq_left hmax
    have h1 : 1 ≤ (s.refill now).tokens := by
      rw [hrefill]
      have hn : (0 : ℚ) ≤ (n : ℚ) := Nat.cast_nonneg n
      push_cast at htok
      linarith
    unfold acquireN RateLimiter.tryAcquire
    dsimp only
    rw [if_pos h1]
    dsimp only
    apply ih
    · rfl
    · show (n : ℚ) ≤ (s.refill now).tokens - 1
      rw [hrefill]
      push_cast at htok
      linarith
    · show (s.refill now).tokens - 1 ≤ (((s.refill now).max_tokens : Nat) : ℚ)
      have : (s.refill now).tokens ≤ ((s.max_tokens : Nat) : ℚ) := by
        rw [hrefill]
        exact hmax
      exact le_trans (by linarith) this

/-- Claim C10: whenever `build` succeeds — for every outcome of the
underlying reqwest client construction, every user agent and every
credential — the freshly built client keeps its credential and its
limiter is keyed on authentication state: `max_tokens = 60` with any
credential, 25 with none; the bucket starts full
(`tokens = max_tokens`); and with no elapsed time the first `max_tokens`
acquire iterations all obtain a token immediately, never entering the
waiting branch. -/
theorem c10_fresh_client_limiter (http_build_ok : String → Bool) (ua : String)
    (auth a : Option Auth) (now : ℚ) (limiter : RateLimiterInner)
    (h : ClientBuilder.build http_build_ok (some ua) auth now = Except.ok (a, limiter)) :
    a = auth ∧
    limiter.max_tokens = (if auth.isSome then 60 else 25) ∧
    limiter.tokens = (limiter.max_tokens : ℚ) ∧
    (acquireN limiter now limiter.max_tokens).2 = true := by
  unfold ClientBuilder.build at h
  dsimp only at h
  by_cases hua : ua = ""
  · rw [if_pos hua] at h
    exact Except.noConfusion h
  · rw [if_neg hua] at h
    by_cases hok : http_build_ok ua = true
    · rw [if_pos hok] at h
      injection h with hp
      rw [Prod.mk.injEq] at hp
      obtain ⟨ha, hl⟩ := hp
      subst ha
      subst hl
      exact ⟨rfl, rfl, rfl, acquireN_all_immediate _ _ now rfl (le_refl _) (le_refl _)⟩
    · rw [if_neg hok] at h
      exact Except.noConfusion h

/-- Witness for C10: instantiates the theorem at a concrete successful
build — an accepting construction oracle, user agent `TestApp/1.0`, no
credential — whose limiter is the full 25-token bucket honouring 25
immediate acquires. -/
theorem c10_witness :
    (none : Option Auth) = none ∧
    (RateLimiter.new 25 0).max_tokens = (if (none : Option Auth).isSome then 60 else 25) ∧
    (RateLimiter.new 25 0).tokens = ((RateLimiter.new 25 0).max_tokens : ℚ) ∧
    (acquireN (RateLimiter.new 25 0) 0 (RateLimiter.new 25 0).max_tokens).2 = true :=
  c10_fresh_client_limiter (fun _ => true) "TestApp/1.0" none none 0 (RateLimiter.new 25 0) rfl
